import Mathlib

/-!
Verification development for the WarpSimulation analysis scripts
(statisticaltest.py and barchart.py).

The two scripts are linear pandas/numpy/scipy pipelines over a CSV with
columns k (integer), bytes (integer), time (float).  We embed the data
as a list of records with rational times.  IEEE float special values
(NaN and the infinities), which pandas produces instead of raising on
division by zero or on statistics of degenerate samples, are modelled by
the type FVal below; real-valued quantities involving square roots
(standard deviations, Cohen d, the t statistic) are modelled over the
real numbers.
-/

namespace WarpSim

/-- One CSV row of the benchmark log: concurrency level k, message size
in bytes, elapsed time in seconds. -/
structure Record where
  k : ℤ
  bytes : ℤ
  time : ℚ
deriving DecidableEq

/-- IEEE-style float value: a finite rational, an infinity, or NaN.
Finite zero is unsigned (treated as +0), which matches every value the
scripts can produce from finite data. -/
inductive FVal where
  | num (q : ℚ)
  | posInf
  | negInf
  | nan
deriving DecidableEq

namespace FVal

/-- Subtraction with IEEE special-value semantics. -/
def fsub : FVal → FVal → FVal
  | num a, num b => num (a - b)
  | num _, posInf => negInf
  | num _, negInf => posInf
  | posInf, num _ => posInf
  | negInf, num _ => negInf
  | posInf, negInf => posInf
  | negInf, posInf => negInf
  | posInf, posInf => nan
  | negInf, negInf => nan
  | _, _ => nan

/-- Multiplication with IEEE special-value semantics. -/
def fmul : FVal → FVal → FVal
  | num a, num b => num (a * b)
  | num a, posInf => if 0 < a then posInf else if a < 0 then negInf else nan
  | num a, negInf => if 0 < a then negInf else if a < 0 then posInf else nan
  | posInf, num b => if 0 < b then posInf else if b < 0 then negInf else nan
  | negInf, num b => if 0 < b then negInf else if b < 0 then posInf else nan
  | posInf, posInf => posInf
  | negInf, negInf => posInf
  | posInf, negInf => negInf
  | negInf, posInf => negInf
  | _, _ => nan

/-- Division with IEEE special-value semantics.  Division of a nonzero
finite value by (positive) zero yields a signed infinity, 0/0 yields
NaN; numpy emits a RuntimeWarning in these cases but no exception. -/
def fdiv : FVal → FVal → FVal
  | num a, num b =>
      if b ≠ 0 then num (a / b)
      else if 0 < a then posInf
      else if a < 0 then negInf
      else nan
  | num _, posInf => num 0
  | num _, negInf => num 0
  | posInf, num b => if 0 ≤ b then posInf else negInf
  | negInf, num b => if 0 ≤ b then negInf else posInf
  | posInf, posInf => nan
  | posInf, negInf => nan
  | negInf, posInf => nan
  | negInf, negInf => nan
  | _, _ => nan

/-- Extract the finite value, if any.  pandas skipna-style reductions
keep exactly the non-NaN entries; subtraction of finite/NaN values never
produces an infinity, so on the difference series this is the skipna
filter. -/
def toRat? : FVal → Option ℚ
  | num q => some q
  | _ => none

/-- A value is finite when it is neither NaN nor an infinity. -/
def isFinite : FVal → Bool
  | num _ => true
  | _ => false

end FVal

/-- Arithmetic mean of a list of rationals (junk value 0 on the empty
list; callers guard emptiness). -/
def ratMean (l : List ℚ) : ℚ := l.sum / l.length

/-- Mean as pandas computes it: NaN on an empty series. -/
def listMeanF (l : List ℚ) : FVal :=
  if l.isEmpty then FVal.nan else FVal.num (ratMean l)

/-- Bessel-corrected (ddof = 1) sample variance of a list of rationals.
For lists of length < 2 the rational division by zero yields the junk
value 0; callers that care (standard deviations) guard the length. -/
def sampleVarQ (l : List ℚ) : ℚ :=
  (l.map (fun x => (x - ratMean l) ^ 2)).sum / ((l.length : ℚ) - 1)

/-- Sum of squares of a list of rationals. -/
def sumSq (l : List ℚ) : ℚ := (l.map (fun x => x ^ 2)).sum

/-- Stated from the spec glossary: Bessel-corrected sample variance in
its sum-of-squares form, (sum of squares - n * mean^2) / (n - 1). -/
def specSampleVar (l : List ℚ) : ℚ :=
  (sumSq l - (l.length : ℚ) * ratMean l ^ 2) / ((l.length : ℚ) - 1)

/-- The raw time samples of the (k, bytes) group: in the statistics
script this is both the groupby group and the boolean-mask selection
df[(df[k] == kv) & (df[bytes] == b)][time] used in the per-size loop. -/
def groupTimes (df : List Record) (kv b : ℤ) : List ℚ :=
  (df.filter (fun r => r.k = kv ∧ r.bytes = b)).map Record.time

/-- Insert an integer into a strictly sorted list, keeping it strictly
sorted (no duplicates). -/
def insertSortedDistinct (x : ℤ) : List ℤ → List ℤ
  | [] => [x]
  | y :: ys =>
      if x < y then x :: y :: ys
      else if x = y then y :: ys
      else y :: insertSortedDistinct x ys

/-- The sorted list of distinct values of a list, as pandas produces for
pivot columns, pivot index and sorted(unique). -/
def sortedDistinct (l : List ℤ) : List ℤ := l.foldr insertSortedDistinct []

/-- The distinct k values of the data frame, ascending: these are the
column labels of mean_times.pivot(index=bytes, columns=k, values=time),
since pandas sorts pivot columns. -/
def distinctK (df : List Record) : List ℤ := sortedDistinct (df.map Record.k)

/-- The distinct bytes values, ascending: the pivot index, and also
sorted(df[bytes].unique()) in the bar-chart script. -/
def distinctBytesSorted (df : List Record) : List ℤ :=
  sortedDistinct (df.map Record.bytes)

/-- Distinct values in order of first appearance, as df[bytes].unique()
iterates in the per-size test loop. -/
def uniqueFirst (l : List ℤ) : List ℤ :=
  l.foldl (fun acc x => if x ∈ acc then acc else acc ++ [x]) []

/-- The (k, bytes) pairs that occur in the data frame, each once: the
group keys of df.groupby([k, bytes]). -/
def groupPairs (df : List Record) : List (ℤ × ℤ) :=
  (df.map (fun r => (r.k, r.bytes))).dedup

/-- The groupby aggregate df.groupby([k, bytes])[time].mean().reset_index():
one row (k, bytes, mean time) per occurring group. -/
def mean_times (df : List Record) : List (ℤ × ℤ × ℚ) :=
  (groupPairs df).map (fun p => (p.1, p.2, ratMean (groupTimes df p.1 p.2)))

/-- Looking up cell (index = b, column = kv) of the pivoted mean_times
table: the mean-time entry of group (kv, b) when the group occurs. -/
def pivotLookup (df : List Record) (kv b : ℤ) : Option ℚ :=
  ((mean_times df).find? (fun row => row.1 == kv && row.2.1 == b)).map
    (fun row => row.2.2)

/-- A cell of the pivot table as a float: pandas fills combinations of
index and column with no underlying group with NaN. -/
def pivotEntry (df : List Record) (kv b : ℤ) : FVal :=
  match pivotLookup df kv b with
  | some q => FVal.num q
  | none => FVal.nan

/-- Entry of the column labelled k1 after pivot.columns = [k1, k8]: the
assignment is positional, so the label k1 lands on the first (smallest)
distinct k value of the input, whatever it is. -/
def k1Entry (df : List Record) (b : ℤ) : FVal :=
  pivotEntry df ((distinctK df).getD 0 0) b

/-- Entry of the column labelled k8 after the positional rename: the
second (largest) distinct k value of the input. -/
def k8Entry (df : List Record) (b : ℤ) : FVal :=
  pivotEntry df ((distinctK df).getD 1 0) b

/-- improvement_% column: (pivot[k1] - pivot[k8]) / pivot[k1] * 100 in
float semantics. -/
def pivotImprovement (df : List Record) (b : ℤ) : FVal :=
  FVal.fmul (FVal.fdiv (FVal.fsub (k1Entry df b) (k8Entry df b)) (k1Entry df b))
    (FVal.num 100)

/-- time_saved_s column: pivot[k1] - pivot[k8]. -/
def timeSaved (df : List Record) (b : ℤ) : FVal :=
  FVal.fsub (k1Entry df b) (k8Entry df b)

/-- Mean of the raw samples selected in the per-size loop
(k1_data.mean() resp. k8_data.mean()); NaN on an empty selection. -/
def loopMean (df : List Record) (kv b : ℤ) : FVal :=
  listMeanF (groupTimes df kv b)

/-- Sample count printed in the per-size loop: len(k1_data) resp.
len(k8_data). -/
def loopCount (df : List Record) (kv b : ℤ) : ℕ :=
  (groupTimes df kv b).length

/-- mean_improvement recomputed inside the per-size loop from the raw
samples: (k1_data.mean() - k8_data.mean()) / k1_data.mean() * 100. -/
def loopImprovement (df : List Record) (b : ℤ) : FVal :=
  FVal.fmul
    (FVal.fdiv (FVal.fsub (loopMean df 1 b) (loopMean df 8 b)) (loopMean df 1 b))
    (FVal.num 100)

/-- The numeric payload of everything statisticaltest.py prints after
the pivot rename succeeds: the renamed pivot table, the derived
improvement columns, and the per-size loop lines (k1 mean, k1 count,
k8 mean, k8 count, improvement).  The real-valued quantities (Cohen d
and the t-test results) are modelled separately below; being float
arithmetic and scipy calls, they never raise. -/
structure StatsOutput where
  pivotTable : List (ℤ × FVal × FVal)
  improvements : List (ℤ × FVal × FVal)
  perSize : List (ℤ × FVal × ℕ × FVal × ℕ × FVal)
deriving DecidableEq

/-- The run of statisticaltest.py on a loaded data frame.  The single
failure point after loading is pivot.columns = [k1, k8] at line 11,
which raises ValueError unless the pivot has exactly two columns, i.e.
unless the input has exactly two distinct k values.  All later numeric
steps are float arithmetic (division by zero gives inf/NaN with only a
RuntimeWarning) or scipy calls that return NaN on degenerate samples,
so they cannot fault. -/
def runStats (df : List Record) : Except String StatsOutput :=
  if (distinctK df).length = 2 then
    Except.ok
      { pivotTable :=
          (distinctBytesSorted df).map (fun b => (b, k1Entry df b, k8Entry df b))
        improvements :=
          (distinctBytesSorted df).map
            (fun b => (b, pivotImprovement df b, timeSaved df b))
        perSize :=
          (uniqueFirst (df.map Record.bytes)).map
            (fun b => (b, loopMean df 1 b, loopCount df 1 b, loopMean df 8 b,
              loopCount df 8 b, loopImprovement df b)) }
  else Except.error "ValueError: Length mismatch"

/-- The differences series of line 26, pivot[k1] - pivot[k8], reduced
the way the skipna reductions np.mean / np.std see it: the finite
entries, in pivot index order.  Subtraction of finite/NaN cells never
produces an infinity, so dropping non-finite entries is exactly
dropping NaN. -/
def codeDiffList (df : List Record) : List ℚ :=
  ((distinctBytesSorted df).map
    (fun b => FVal.fsub (k1Entry df b) (k8Entry df b))).filterMap FVal.toRat?

/-- Stated from the spec: the per-bytes-value differences
k1_mean - k8_mean over exactly the bytes values that have samples in
both the k = 1 and the k = 8 group. -/
def specDiffList (df : List Record) : List ℚ :=
  ((distinctBytesSorted df).filter
    (fun b => !(groupTimes df 1 b).isEmpty && !(groupTimes df 8 b).isEmpty)).map
    (fun b => ratMean (groupTimes df 1 b) - ratMean (groupTimes df 8 b))

/-- Cohen d of a list of differences: np.mean(l) / np.std(l, ddof=1),
the mean divided by the Bessel-corrected sample standard deviation. -/
noncomputable def cohensD (l : List ℚ) : ℝ :=
  ((ratMean l : ℚ) : ℝ) / Real.sqrt ((sampleVarQ l : ℚ) : ℝ)

/-- Sample count of a (bytes, k) group in barchart.py:
groups["time"].count(). -/
def groupN (df : List Record) (b kv : ℤ) : ℕ := (groupTimes df kv b).length

/-- Entry of stds = groups["time"].std() for an occurring group: pandas
uses ddof = 1, and returns NaN (modelled as none) on a single-sample
group. -/
noncomputable def stds (df : List Record) (b kv : ℤ) : Option ℝ :=
  if 2 ≤ groupN df b kv then
    some (Real.sqrt ((sampleVarQ (groupTimes df kv b) : ℚ) : ℝ))
  else none

/-- Entry of cis = 1.96 * stds / np.sqrt(ns) for an occurring group;
NaN std propagates to a NaN confidence half-width. -/
noncomputable def cis (df : List Record) (b kv : ℤ) : Option ℝ :=
  (stds df b kv).map (fun s => 1.96 * s / Real.sqrt (groupN df b kv))

/-- Lookup means[(b, k_val)] in the bar-plot loop: a missing group key
raises KeyError. -/
def lookupMean (df : List Record) (b kv : ℤ) : Except String ℚ :=
  if groupTimes df kv b = [] then Except.error "KeyError"
  else Except.ok (ratMean (groupTimes df kv b))

/-- Lookup cis[(b, k_val)] in the bar-plot loop: the cis series has an
entry exactly for the occurring groups (value NaN when the group has a
single sample, represented computably by its squared half-width
datum, the sample variance). -/
def lookupCI (df : List Record) (b kv : ℤ) : Except String (Option ℚ) :=
  if groupTimes df kv b = [] then Except.error "KeyError"
  else Except.ok
    (if 2 ≤ (groupTimes df kv b).length then
      some (sampleVarQ (groupTimes df kv b))
    else none)

/-- Run a list of fallible lookups, stopping at the first error, as a
Python list comprehension does. -/
def collectLookups {α : Type} (f : ℤ → Except String α) : List ℤ → Except String (List α)
  | [] => Except.ok []
  | b :: bs =>
      match f b with
      | Except.error e => Except.error e
      | Except.ok v =>
          match collectLookups f bs with
          | Except.error e => Except.error e
          | Except.ok vs => Except.ok (v :: vs)

/-- Whether an Except run succeeded. -/
def okB {α : Type} : Except String α → Bool
  | Except.ok _ => true
  | Except.error _ => false

/-- One iteration of the bar-plot loop, for a fixed k_val: builds
vals = [means[(b, k_val)] for b in byte_sizes] and
errs = [cis[(b, k_val)] for b in byte_sizes]; each lookup raises
KeyError when the (b, k_val) group has no samples. -/
def barColumn (df : List Record) (kv : ℤ) :
    Except String (List ℚ × List (Option ℚ)) :=
  match collectLookups (fun b => lookupMean df b kv) (distinctBytesSorted df) with
  | Except.error e => Except.error e
  | Except.ok vals =>
      match collectLookups (fun b => lookupCI df b kv) (distinctBytesSorted df) with
      | Except.error e => Except.error e
      | Except.ok errList => Except.ok (vals, errList)

/-- The bar-plot loop of barchart.py: the per-k_val lookups for
k_val in [1, 8]. -/
def barRun (df : List Record) :
    Except String (List (List ℚ × List (Option ℚ))) :=
  collectLookups (fun kv => barColumn df kv) [1, 8]

/-- Modelled from the spec: the t statistic of the standard unpaired
equal-variance two-sample t test (the scipy.stats.ttest_ind default),
(m1 - m2) / sqrt(sp2 * (1/n1 + 1/n2)) with the pooled variance
sp2 = ((n1-1)*s1^2 + (n2-1)*s2^2) / (n1+n2-2). -/
noncomputable def ttestT (xs ys : List ℚ) : ℝ :=
  ((ratMean xs - ratMean ys : ℚ) : ℝ) /
    Real.sqrt
      (((((xs.length : ℚ) - 1) * sampleVarQ xs + ((ys.length : ℚ) - 1) * sampleVarQ ys) /
          ((xs.length : ℚ) + (ys.length : ℚ) - 2) : ℚ) *
        (1 / (xs.length : ℝ) + 1 / (ys.length : ℝ)))

/-- Density of the Student t distribution with nu degrees of freedom. -/
noncomputable def tPdf (nu : ℕ) (x : ℝ) : ℝ :=
  Real.Gamma (((nu : ℝ) + 1) / 2) /
      (Real.sqrt ((nu : ℝ) * Real.pi) * Real.Gamma ((nu : ℝ) / 2)) *
    (1 + x ^ 2 / (nu : ℝ)) ^ (-(((nu : ℝ) + 1) / 2))

/-- Survival function of the Student t distribution. -/
noncomputable def tSF (nu : ℕ) (t : ℝ) : ℝ := ∫ x in Set.Ioi t, tPdf nu x

/-- Two-tailed p-value of a t statistic at nu degrees of freedom. -/
noncomputable def pTwoTailed (nu : ℕ) (t : ℝ) : ℝ := 2 * tSF nu |t|

/-- Modelled from the spec: scipy.stats.ttest_ind with its defaults
(equal_var = True, two-sided), as the pair (t statistic, p-value). -/
noncomputable def ttest_ind (xs ys : List ℚ) : ℝ × ℝ :=
  (ttestT xs ys, pTwoTailed (xs.length + ys.length - 2) (ttestT xs ys))

/-- The t test performed for one message size in the per-size loop:
stats.ttest_ind(k1_data, k8_data) on the raw samples. -/
noncomputable def perSizeTTest (df : List Record) (b : ℤ) : ℝ × ℝ :=
  ttest_ind (groupTimes df 1 b) (groupTimes df 8 b)

/-- Sample input: two k levels at one message size, with two samples in
each group. -/
def exA : List Record := [⟨1, 64, 1⟩, ⟨1, 64, 3⟩, ⟨8, 64, 1⟩, ⟨8, 64, 1⟩]

/-- Sample input whose k = 1 group mean is exactly zero. -/
def exZero : List Record := [⟨1, 64, 0⟩, ⟨8, 64, 1 / 2⟩]

/-- Sample input with two distinct k values different from the set
containing 1 and 8. -/
def exOdd : List Record := [⟨1, 64, 1⟩, ⟨2, 64, 1 / 2⟩]

/-- Sample input with a single record, hence one distinct k value and a
single-sample group. -/
def exSingle : List Record := [⟨1, 64, 5⟩]

theorem mem_insertSortedDistinct (a x : ℤ) :
    ∀ l : List ℤ, a ∈ insertSortedDistinct x l ↔ a = x ∨ a ∈ l := by
  intro l
  induction l with
  | nil => simp [insertSortedDistinct]
  | cons y ys ih =>
      simp only [insertSortedDistinct]
      split
      · simp [List.mem_cons]
      · split
        · rename_i h1 h2
          subst h2
          simp only [List.mem_cons]
          tauto
        · simp only [List.mem_cons, ih]
          tauto

theorem mem_sortedDistinct (a : ℤ) :
    ∀ l : List ℤ, a ∈ sortedDistinct l ↔ a ∈ l := by
  intro l
  induction l with
  | nil => simp [sortedDistinct]
  | cons y ys ih =>
      simp only [sortedDistinct, List.foldr_cons] at *
      rw [mem_insertSortedDistinct, ih, List.mem_cons]

theorem pairwise_insertSortedDistinct (x : ℤ) :
    ∀ l : List ℤ, l.Pairwise (· < ·) →
      (insertSortedDistinct x l).Pairwise (· < ·) := by
  intro l
  induction l with
  | nil => simp [insertSortedDistinct]
  | cons y ys ih =>
      intro hp
      rw [List.pairwise_cons] at hp
      by_cases h1 : x < y
      · simp only [insertSortedDistinct, if_pos h1]
        rw [List.pairwise_cons]
        refine ⟨?_, List.pairwise_cons.mpr hp⟩
        intro a ha
        rcases List.mem_cons.mp ha with h | h
        · exact h ▸ h1
        · exact lt_trans h1 (hp.1 a h)
      · by_cases h2 : x = y
        · simp only [insertSortedDistinct, if_neg h1, if_pos h2]
          exact List.pairwise_cons.mpr hp
        · simp only [insertSortedDistinct, if_neg h1, if_neg h2]
          rw [List.pairwise_cons]
          refine ⟨?_, ih hp.2⟩
          intro a ha
          rcases (mem_insertSortedDistinct a x ys).mp ha with h | h
          · subst h
            omega
          · exact hp.1 a h

theorem pairwise_sortedDistinct :
    ∀ l : List ℤ, (sortedDistinct l).Pairwise (· < ·) := by
  intro l
  induction l with
  | nil => simp [sortedDistinct]
  | cons y ys ih => exact pairwise_insertSortedDistinct y _ ih

theorem nodup_sortedDistinct (l : List ℤ) : (sortedDistinct l).Nodup :=
  (pairwise_sortedDistinct l).imp ne_of_lt

theorem groupTimes_ne_nil (df : List Record) (kv b : ℤ) :
    groupTimes df kv b ≠ [] ↔ ∃ r ∈ df, r.k = kv ∧ r.bytes = b := by
  unfold groupTimes
  rw [ne_eq, List.map_eq_nil_iff]
  constructor
  · intro h
    rcases List.exists_mem_of_ne_nil _ h with ⟨r, hr⟩
    have := List.of_mem_filter hr
    exact ⟨r, List.mem_of_mem_filter hr, by simpa using this⟩
  · rintro ⟨r, hr, h1, h2⟩ hnil
    have : r ∈ df.filter (fun r => decide (r.k = kv ∧ r.bytes = b)) :=
      List.mem_filter.mpr ⟨hr, by simp [h1, h2]⟩
    rw [hnil] at this
    exact (List.not_mem_nil r) this

theorem mem_groupPairs (df : List Record) (kv b : ℤ) :
    (kv, b) ∈ groupPairs df ↔ groupTimes df kv b ≠ [] := by
  rw [groupTimes_ne_nil]
  unfold groupPairs
  rw [List.mem_dedup, List.mem_map]
  constructor
  · rintro ⟨r, hr, hrk⟩
    exact ⟨r, hr, congrArg Prod.fst hrk, congrArg Prod.snd hrk⟩
  · rintro ⟨r, hr, h1, h2⟩
    exact ⟨r, hr, by simp [h1, h2]⟩

theorem find?_mean_times (g : ℤ → ℤ → ℚ) (kv b : ℤ) :
    ∀ l : List (ℤ × ℤ),
      ((l.map (fun p => (p.1, p.2, g p.1 p.2))).find?
          (fun row => row.1 == kv && row.2.1 == b)) =
        if (kv, b) ∈ l then some (kv, b, g kv b) else none := by
  intro l
  induction l with
  | nil => simp
  | cons p ps ih =>
      by_cases hp : p = (kv, b)
      · subst hp
        rw [List.map_cons, List.find?_cons_of_pos, if_pos (List.mem_cons_self _ _)]
        simp
      · rw [List.map_cons, List.find?_cons_of_neg, ih]
        · have : ((kv, b) ∈ p :: ps) ↔ ((kv, b) ∈ ps) := by
            rw [List.mem_cons]
            constructor
            · rintro (h | h)
              · exact absurd h.symm hp
              · exact h
            · exact Or.inr
          simp only [this]
        · simp only [Bool.and_eq_true, beq_iff_eq]
          intro hcon
          exact hp (Prod.ext hcon.1 hcon.2)

/-- Key pivot lemma: each cell of the pivot table is the mean of the raw
time samples of its (k, bytes) group, NaN when the group is absent. -/
theorem pivotEntry_eq (df : List Record) (kv b : ℤ) :
    pivotEntry df kv b = listMeanF (groupTimes df kv b) := by
  unfold pivotEntry pivotLookup mean_times
  rw [find?_mean_times (fun a c => ratMean (groupTimes df a c)) kv b (groupPairs df)]
  by_cases h : groupTimes df kv b = []
  · rw [if_neg (fun hmem => (mem_groupPairs df kv b).mp hmem h)]
    simp [listMeanF, h]
  · rw [if_pos ((mem_groupPairs df kv b).mpr h)]
    simp [listMeanF, List.isEmpty_iff, h]

theorem listMeanF_ne_nil {l : List ℚ} (h : l ≠ []) :
    listMeanF l = FVal.num (ratMean l) := by
  simp [listMeanF, List.isEmpty_iff, h]

theorem listMeanF_nil : listMeanF [] = FVal.nan := rfl

theorem sum_sq_sub (m : ℚ) :
    ∀ l : List ℚ,
      (l.map (fun x => (x - m) ^ 2)).sum =
        sumSq l - 2 * m * l.sum + l.length * m ^ 2 := by
  intro l
  induction l with
  | nil => simp [sumSq]
  | cons x xs ih =>
      simp only [List.map_cons, List.sum_cons, ih, sumSq, List.length_cons]
      push_cast
      ring

/-- The two standard ways of writing the Bessel-corrected sample
variance agree. -/
theorem sampleVarQ_eq_spec : ∀ l : List ℚ, sampleVarQ l = specSampleVar l := by
  intro l
  unfold sampleVarQ specSampleVar
  rw [sum_sq_sub (ratMean l) l]
  rcases eq_or_ne l [] with h | h
  · subst h
    simp [ratMean, sumSq]
  · have hn : (l.length : ℚ) ≠ 0 := by
      have hpos : 0 < l.length := List.length_pos.mpr h
      exact_mod_cast Nat.pos_iff_ne_zero.mp hpos
    have hm : (l.length : ℚ) * ratMean l = l.sum := by
      unfold ratMean
      field_simp
    congr 1
    rw [← hm]
    ring

theorem k1Entry_eq_loopMean (df : List Record) (h : distinctK df = [1, 8])
    (b : ℤ) : k1Entry df b = listMeanF (groupTimes df 1 b) := by
  unfold k1Entry
  rw [h]
  exact pivotEntry_eq df 1 b

theorem k8Entry_eq_loopMean (df : List Record) (h : distinctK df = [1, 8])
    (b : ℤ) : k8Entry df b = listMeanF (groupTimes df 8 b) := by
  unfold k8Entry
  rw [h]
  exact pivotEntry_eq df 8 b

/-- The comparison-table improvement and the loop improvement are the
same float computation once the pivot columns are identified with the
k = 1 and k = 8 group means. -/
theorem improvement_eq_helper (df : List Record) (h : distinctK df = [1, 8])
    (b : ℤ) : pivotImprovement df b = loopImprovement df b := by
  unfold pivotImprovement loopImprovement loopMean
  rw [k1Entry_eq_loopMean df h b, k8Entry_eq_loopMean df h b]

theorem runStats_ok_iff (df : List Record) :
    okB (runStats df) = true ↔ (distinctK df).length = 2 := by
  unfold runStats
  split <;> simp_all [okB]

theorem mem_distinctBytesSorted (df : List Record) (b : ℤ) :
    b ∈ distinctBytesSorted df ↔ ∃ r ∈ df, r.bytes = b := by
  unfold distinctBytesSorted
  rw [mem_sortedDistinct, List.mem_map]

theorem sortedDistinct_eq_18 (l : List ℤ)
    (hsub : ∀ x ∈ l, x = 1 ∨ x = 8) (h1 : 1 ∈ l) (h8 : 8 ∈ l) :
    sortedDistinct l = [1, 8] := by
  have hpw := pairwise_sortedDistinct l
  have h1s : (1 : ℤ) ∈ sortedDistinct l := (mem_sortedDistinct 1 l).mpr h1
  have h8s : (8 : ℤ) ∈ sortedDistinct l := (mem_sortedDistinct 8 l).mpr h8
  have hsubs : ∀ x ∈ sortedDistinct l, x = 1 ∨ x = 8 := fun x hx =>
    hsub x ((mem_sortedDistinct x l).mp hx)
  revert hpw h1s h8s hsubs
  generalize sortedDistinct l = s
  intro hpw h1s h8s hsubs
  cases s with
  | nil => exact absurd h1s (List.not_mem_nil 1)
  | cons a t =>
      cases t with
      | nil =>
          exfalso
          have e1 := List.mem_singleton.mp h1s
          have e8 := List.mem_singleton.mp h8s
          omega
      | cons c u =>
          cases u with
          | nil =>
              have hac : a < c := (List.pairwise_cons.mp hpw).1 c (by simp)
              have ha := hsubs a (by simp)
              have hc := hsubs c (by simp)
              have h1m : (1 : ℤ) = a ∨ (1 : ℤ) = c := by simpa using h1s
              have h8m : (8 : ℤ) = a ∨ (8 : ℤ) = c := by simpa using h8s
              have he : a = 1 ∧ c = 8 := by omega
              rw [he.1, he.2]
          | cons d v =>
              exfalso
              have hac : a < c := (List.pairwise_cons.mp hpw).1 c (by simp)
              have hcd : c < d :=
                (List.pairwise_cons.mp (List.pairwise_cons.mp hpw).2).1 d (by simp)
              have ha := hsubs a (by simp)
              have hc := hsubs c (by simp)
              have hd := hsubs d (by simp)
              omega

/-- The pivot rename labels the columns k1 and k8 correctly exactly when
the records use both k values 1 and 8 and no other. -/
theorem distinctK_eq_18_iff (df : List Record) :
    distinctK df = [1, 8] ↔
      ((∃ r ∈ df, r.k = 1) ∧ (∃ r ∈ df, r.k = 8) ∧
        ∀ r ∈ df, r.k = 1 ∨ r.k = 8) := by
  constructor
  · intro h
    have hmem : ∀ x : ℤ, x ∈ df.map Record.k ↔ x ∈ ([1, 8] : List ℤ) := by
      intro x
      rw [← mem_sortedDistinct x (df.map Record.k)]
      show x ∈ distinctK df ↔ _
      rw [h]
    refine ⟨?_, ?_, ?_⟩
    · rcases List.mem_map.mp ((hmem 1).mpr (by simp)) with ⟨r, hr, hrk⟩
      exact ⟨r, hr, hrk⟩
    · rcases List.mem_map.mp ((hmem 8).mpr (by simp)) with ⟨r, hr, hrk⟩
      exact ⟨r, hr, hrk⟩
    · intro r hr
      have : r.k ∈ ([1, 8] : List ℤ) :=
        (hmem r.k).mp (List.mem_map_of_mem Record.k hr)
      simpa using this
  · rintro ⟨⟨r1, hr1, hk1⟩, ⟨r8, hr8, hk8⟩, hall⟩
    apply sortedDistinct_eq_18
    · intro x hx
      rcases List.mem_map.mp hx with ⟨r, hr, rfl⟩
      exact hall r hr
    · exact List.mem_map.mpr ⟨r1, hr1, hk1⟩
    · exact List.mem_map.mpr ⟨r8, hr8, hk8⟩

theorem okB_collectLookups {α : Type} (f : ℤ → Except String α) :
    ∀ l : List ℤ,
      okB (collectLookups f l) = true ↔ ∀ b ∈ l, okB (f b) = true := by
  intro l
  induction l with
  | nil => simp [collectLookups, okB]
  | cons b bs ih =>
      simp only [collectLookups]
      cases hf : f b with
      | error e =>
          constructor
          · intro hco
            exact absurd hco (by simp [okB])
          · intro hall
            have hfb := hall b (List.mem_cons_self b bs)
            rw [hf] at hfb
            exact absurd hfb (by simp [okB])
      | ok v =>
          cases hc : collectLookups f bs with
          | error e =>
              constructor
              · intro hco
                exact absurd hco (by simp [okB])
              · intro hall
                have hco : okB (collectLookups f bs) = true :=
                  ih.mpr (fun x hx => hall x (List.mem_cons_of_mem b hx))
                rw [hc] at hco
                exact absurd hco (by simp [okB])
          | ok vs =>
              constructor
              · intro _ x hx
                rcases List.mem_cons.mp hx with rfl | hx
                · rw [hf]
                  rfl
                · have hco : okB (collectLookups f bs) = true := by
                    rw [hc]
                    rfl
                  exact ih.mp hco x hx
              · intro _
                rfl

theorem okB_lookupMean (df : List Record) (b kv : ℤ) :
    okB (lookupMean df b kv) = true ↔ groupTimes df kv b ≠ [] := by
  unfold lookupMean
  split <;> simp_all [okB]

theorem okB_lookupCI (df : List Record) (b kv : ℤ) :
    okB (lookupCI df b kv) = true ↔ groupTimes df kv b ≠ [] := by
  unfold lookupCI
  split <;> simp_all [okB]

theorem okB_barColumn_eq (df : List Record) (kv : ℤ) :
    okB (barColumn df kv) =
      (okB (collectLookups (fun b => lookupMean df b kv) (distinctBytesSorted df)) &&
        okB (collectLookups (fun b => lookupCI df b kv) (distinctBytesSorted df))) := by
  unfold barColumn
  cases hm : collectLookups (fun b => lookupMean df b kv) (distinctBytesSorted df) with
  | error e => simp [okB]
  | ok vals =>
      cases hc : collectLookups (fun b => lookupCI df b kv) (distinctBytesSorted df) with
      | error e => simp [okB]
      | ok l => simp [okB]

theorem okB_barColumn_iff (df : List Record) (kv : ℤ) :
    okB (barColumn df kv) = true ↔
      ∀ b ∈ distinctBytesSorted df, groupTimes df kv b ≠ [] := by
  rw [okB_barColumn_eq, Bool.and_eq_true, okB_collectLookups, okB_collectLookups]
  constructor
  · rintro ⟨hm, _⟩ b hb
    exact (okB_lookupMean df b kv).mp (hm b hb)
  · intro h
    exact ⟨fun b hb => (okB_lookupMean df b kv).mpr (h b hb),
      fun b hb => (okB_lookupCI df b kv).mpr (h b hb)⟩

theorem barRun_ok_iff (df : List Record) :
    okB (barRun df) = true ↔
      ∀ b ∈ distinctBytesSorted df,
        groupTimes df 1 b ≠ [] ∧ groupTimes df 8 b ≠ [] := by
  unfold barRun
  rw [okB_collectLookups]
  constructor
  · intro hk b hb
    exact ⟨(okB_barColumn_iff df 1).mp (hk 1 (by simp)) b hb,
      (okB_barColumn_iff df 8).mp (hk 8 (by simp)) b hb⟩
  · intro hb kv hkv
    rw [okB_barColumn_iff]
    intro b hbb
    rcases (by simpa using hkv : kv = 1 ∨ kv = 8) with rfl | rfl
    · exact (hb b hbb).1
    · exact (hb b hbb).2

/-- The skipna difference series of the Cohen d computation is exactly
the per-bytes difference of group means over the bytes values occurring
in both groups. -/
theorem codeDiffList_eq_spec (df : List Record) (h : distinctK df = [1, 8]) :
    codeDiffList df = specDiffList df := by
  unfold codeDiffList specDiffList
  have point : ∀ b : ℤ,
      FVal.toRat? (FVal.fsub (k1Entry df b) (k8Entry df b)) =
        if (!(groupTimes df 1 b).isEmpty && !(groupTimes df 8 b).isEmpty) = true
          then some (ratMean (groupTimes df 1 b) - ratMean (groupTimes df 8 b))
          else none := by
    intro b
    rw [k1Entry_eq_loopMean df h b, k8Entry_eq_loopMean df h b]
    by_cases h1 : groupTimes df 1 b = [] <;> by_cases h8 : groupTimes df 8 b = [] <;>
      simp [listMeanF, List.isEmpty_iff, h1, h8, FVal.fsub, FVal.toRat?]
  generalize distinctBytesSorted df = bs
  induction bs with
  | nil => rfl
  | cons b bs ih =>
      simp only [List.map_cons, List.filterMap_cons, List.filter_cons, point b]
      cases hcond : (!(groupTimes df 1 b).isEmpty && !(groupTimes df 8 b).isEmpty) with
      | true => simp [ih]
      | false => simp [ih]

/-- Starting the improvement formula from a zero k1 mean always lands in
an IEEE special value, never a finite number and never an exception. -/
theorem improvement_nonfinite_of_zero_mean (v : FVal) :
    FVal.isFinite
      (FVal.fmul (FVal.fdiv (FVal.fsub (FVal.num 0) v) (FVal.num 0))
        (FVal.num 100)) = false := by
  cases v with
  | num q =>
      rcases lt_trichotomy (q : ℚ) 0 with hq | hq | hq
      · norm_num [FVal.fsub, FVal.fdiv, FVal.fmul, FVal.isFinite, hq, hq.not_lt]
      · subst hq
        norm_num [FVal.fsub, FVal.fdiv, FVal.fmul, FVal.isFinite]
      · norm_num [FVal.fsub, FVal.fdiv, FVal.fmul, FVal.isFinite, hq, hq.not_lt]
  | posInf => norm_num [FVal.fsub, FVal.fdiv, FVal.fmul, FVal.isFinite]
  | negInf => norm_num [FVal.fsub, FVal.fdiv, FVal.fmul, FVal.isFinite]
  | nan => norm_num [FVal.fsub, FVal.fdiv, FVal.fmul, FVal.isFinite]

/-- C1: the Cohen d printed by the statistics script is
mean(differences) / Bessel-corrected sample stddev(differences), where
the differences are the per-bytes-value k1_mean - k8_mean, taken over
exactly the bytes values that have samples in both the k = 1 and the
k = 8 group: the skipna series the code reduces equals that set of
differences, and the printed quotient is mean over sqrt of sample
variance of it. -/
theorem cohens_d_common_bytes (df : List Record) (h : distinctK df = [1, 8]) :
    codeDiffList df = specDiffList df
    ∧ cohensD (codeDiffList df) =
        ((ratMean (specDiffList df) : ℚ) : ℝ) /
          Real.sqrt ((sampleVarQ (specDiffList df) : ℚ) : ℝ) := by
  have he := codeDiffList_eq_spec df h
  exact ⟨he, by rw [he]; rfl⟩

/-- Witness for C1 at the concrete input exA. -/
theorem cohens_d_common_bytes_witness :
    distinctK exA = [1, 8] ∧
      (codeDiffList exA = specDiffList exA
       ∧ cohensD (codeDiffList exA) =
          ((ratMean (specDiffList exA) : ℚ) : ℝ) /
            Real.sqrt ((sampleVarQ (specDiffList exA) : ℚ) : ℝ)) :=
  ⟨by decide, cohens_d_common_bytes exA (by decide)⟩

/-- C2 counterexample: on the input exZero the k = 1 group mean at
bytes = 64 is exactly zero, yet the improvement formula evaluates to
negative infinity (an IEEE value, not a fault) and the report runs to
completion. -/
theorem improvement_divzero_no_fault_cex :
    loopMean exZero 1 64 = FVal.num 0
    ∧ pivotImprovement exZero 64 = FVal.negInf
    ∧ okB (runStats exZero) = true := by
  refine ⟨?_, ?_, by decide⟩
  · norm_num [loopMean, listMeanF, groupTimes, ratMean, exZero]
  · norm_num [pivotImprovement, k1Entry, k8Entry, distinctK, sortedDistinct,
      insertSortedDistinct, pivotEntry, pivotLookup, mean_times, groupPairs,
      groupTimes, ratMean, FVal.fsub, FVal.fdiv, FVal.fmul, exZero, List.dedup]

/-- C2 (amended): for inputs with k levels 1 and 8 in which some k1
group mean is exactly zero, the improvement-percentage formula does not
raise: it evaluates to an IEEE special value (infinity or NaN), in the
comparison table and in the per-size loop alike, and the report runs to
completion. -/
theorem improvement_divzero_yields_special (df : List Record) (b : ℤ)
    (h : distinctK df = [1, 8]) (h1 : groupTimes df 1 b ≠ [])
    (hz : ratMean (groupTimes df 1 b) = 0) :
    okB (runStats df) = true
    ∧ FVal.isFinite (pivotImprovement df b) = false
    ∧ FVal.isFinite (loopImprovement df b) = false := by
  have hok : okB (runStats df) = true := (runStats_ok_iff df).mpr (by simp [h])
  have hl : loopImprovement df b =
      FVal.fmul
        (FVal.fdiv (FVal.fsub (FVal.num 0) (loopMean df 8 b)) (FVal.num 0))
        (FVal.num 100) := by
    unfold loopImprovement loopMean
    rw [listMeanF_ne_nil h1, hz]
  have hfin := improvement_nonfinite_of_zero_mean (loopMean df 8 b)
  refine ⟨hok, ?_, ?_⟩
  · rw [improvement_eq_helper df h b, hl]
    exact hfin
  · rw [hl]
    exact hfin

/-- Witness for the amended C2 at the concrete input exZero. -/
theorem improvement_divzero_yields_special_witness :
    (distinctK exZero = [1, 8] ∧ groupTimes exZero 1 64 ≠ []
      ∧ ratMean (groupTimes exZero 1 64) = 0) ∧
      (okB (runStats exZero) = true
       ∧ FVal.isFinite (pivotImprovement exZero 64) = false
       ∧ FVal.isFinite (loopImprovement exZero 64) = false) :=
  ⟨⟨by decide, by decide, by norm_num [ratMean, groupTimes, exZero]⟩,
    improvement_divzero_yields_special exZero 64 (by decide) (by decide)
      (by norm_num [ratMean, groupTimes, exZero])⟩

/-- C3 counterexample: the input exSingle uses only k values from the
set containing 1 and 8 (every record has k = 1), yet the reshape step
raises at the positional rename, so no two-column table is produced at
all. -/
theorem reshape_only_k1_raises_cex :
    exSingle.all (fun r => decide (r.k = 1 ∨ r.k = 8)) = true
    ∧ okB (runStats exSingle) = false :=
  ⟨by decide, by decide⟩

/-- C3 (amended): for inputs whose records use only the k values 1 and
8 and in which both levels occur, the reshape produces one row per
distinct bytes value with the k1 and k8 columns holding the k = 1 and
k = 8 group means, and NaN when a bytes value lacks one of the two
levels. -/
theorem reshape_two_columns_nan (df : List Record)
    (honly : ∀ r ∈ df, r.k = 1 ∨ r.k = 8)
    (h1 : ∃ r ∈ df, r.k = 1) (h8 : ∃ r ∈ df, r.k = 8) :
    okB (runStats df) = true
    ∧ (distinctBytesSorted df).Nodup
    ∧ (∀ b : ℤ, b ∈ distinctBytesSorted df ↔ ∃ r ∈ df, r.bytes = b)
    ∧ ∀ b : ℤ,
        (k1Entry df b =
          if groupTimes df 1 b = [] then FVal.nan
          else FVal.num (ratMean (groupTimes df 1 b)))
        ∧ (k8Entry df b =
          if groupTimes df 8 b = [] then FVal.nan
          else FVal.num (ratMean (groupTimes df 8 b))) := by
  have h : distinctK df = [1, 8] := (distinctK_eq_18_iff df).mpr ⟨h1, h8, honly⟩
  refine ⟨(runStats_ok_iff df).mpr (by simp [h]), nodup_sortedDistinct _,
    mem_distinctBytesSorted df, ?_⟩
  intro b
  constructor
  · rw [k1Entry_eq_loopMean df h b]
    by_cases hb : groupTimes df 1 b = []
    · rw [if_pos hb, hb]
      rfl
    · rw [if_neg hb, listMeanF_ne_nil hb]
  · rw [k8Entry_eq_loopMean df h b]
    by_cases hb : groupTimes df 8 b = []
    · rw [if_pos hb, hb]
      rfl
    · rw [if_neg hb, listMeanF_ne_nil hb]

/-- Witness for the amended C3 at the concrete input exA. -/
theorem reshape_two_columns_nan_witness :
    ((∀ r ∈ exA, r.k = 1 ∨ r.k = 8) ∧ (∃ r ∈ exA, r.k = 1)
      ∧ (∃ r ∈ exA, r.k = 8)) ∧
      (okB (runStats exA) = true
       ∧ (distinctBytesSorted exA).Nodup
       ∧ (∀ b : ℤ, b ∈ distinctBytesSorted exA ↔ ∃ r ∈ exA, r.bytes = b)
       ∧ ∀ b : ℤ,
          (k1Entry exA b =
            if groupTimes exA 1 b = [] then FVal.nan
            else FVal.num (ratMean (groupTimes exA 1 b)))
          ∧ (k8Entry exA b =
            if groupTimes exA 8 b = [] then FVal.nan
            else FVal.num (ratMean (groupTimes exA 8 b)))) :=
  ⟨⟨by decide, by decide, by decide⟩,
    reshape_two_columns_nan exA (by decide) (by decide) (by decide)⟩

/-- C4: for well-formed input (both k levels 1 and 8 present and no
others, so the rename is correct), the k1 and k8 means printed per
bytes value, in the pivot table and in the per-size loop, equal the
arithmetic mean of the raw time values of the records sharing that
(k, bytes) pair, and the printed counts equal the number of such
records. -/
theorem printed_means_counts_match_raw (df : List Record) (b : ℤ)
    (h : distinctK df = [1, 8])
    (h1 : groupTimes df 1 b ≠ []) (h8 : groupTimes df 8 b ≠ []) :
    k1Entry df b =
      FVal.num ((groupTimes df 1 b).sum / ((groupTimes df 1 b).length : ℚ))
    ∧ k8Entry df b =
      FVal.num ((groupTimes df 8 b).sum / ((groupTimes df 8 b).length : ℚ))
    ∧ loopMean df 1 b =
      FVal.num ((groupTimes df 1 b).sum / ((groupTimes df 1 b).length : ℚ))
    ∧ loopMean df 8 b =
      FVal.num ((groupTimes df 8 b).sum / ((groupTimes df 8 b).length : ℚ))
    ∧ loopCount df 1 b = (df.filter (fun r => r.k = 1 ∧ r.bytes = b)).length
    ∧ loopCount df 8 b = (df.filter (fun r => r.k = 8 ∧ r.bytes = b)).length := by
  refine ⟨?_, ?_, ?_, ?_, ?_, ?_⟩
  · rw [k1Entry_eq_loopMean df h b, listMeanF_ne_nil h1]
    rfl
  · rw [k8Entry_eq_loopMean df h b, listMeanF_ne_nil h8]
    rfl
  · unfold loopMean
    rw [listMeanF_ne_nil h1]
    rfl
  · unfold loopMean
    rw [listMeanF_ne_nil h8]
    rfl
  · simp [loopCount, groupTimes]
  · simp [loopCount, groupTimes]

/-- Witness for C4 at the concrete input exA, bytes value 64. -/
theorem printed_means_counts_match_raw_witness :
    (distinctK exA = [1, 8] ∧ groupTimes exA 1 64 ≠ []
      ∧ groupTimes exA 8 64 ≠ []) ∧
      (k1Entry exA 64 =
        FVal.num ((groupTimes exA 1 64).sum / ((groupTimes exA 1 64).length : ℚ))
       ∧ k8Entry exA 64 =
        FVal.num ((groupTimes exA 8 64).sum / ((groupTimes exA 8 64).length : ℚ))
       ∧ loopMean exA 1 64 =
        FVal.num ((groupTimes exA 1 64).sum / ((groupTimes exA 1 64).length : ℚ))
       ∧ loopMean exA 8 64 =
        FVal.num ((groupTimes exA 8 64).sum / ((groupTimes exA 8 64).length : ℚ))
       ∧ loopCount exA 1 64 = (exA.filter (fun r => r.k = 1 ∧ r.bytes = 64)).length
       ∧ loopCount exA 8 64 = (exA.filter (fun r => r.k = 8 ∧ r.bytes = 64)).length) :=
  ⟨⟨by decide, by decide, by decide⟩,
    printed_means_counts_match_raw exA 64 (by decide) (by decide) (by decide)⟩

/-- C5 counterexample: on the input exOdd (distinct k values 1 and 2,
so the rename succeeds and the script runs), the comparison-table
improvement at bytes = 64 is 50 while the loop recomputation is NaN:
the two quantities differ, refuting the claim for arbitrary inputs. -/
theorem improvement_table_loop_mismatch_cex :
    okB (runStats exOdd) = true
    ∧ (64 : ℤ) ∈ distinctBytesSorted exOdd
    ∧ pivotImprovement exOdd 64 = FVal.num 50
    ∧ loopImprovement exOdd 64 = FVal.nan
    ∧ pivotImprovement exOdd 64 ≠ loopImprovement exOdd 64 := by
  have hp : pivotImprovement exOdd 64 = FVal.num 50 := by
    norm_num [pivotImprovement, k1Entry, k8Entry, distinctK, sortedDistinct,
      insertSortedDistinct, pivotEntry, pivotLookup, mean_times, groupPairs,
      groupTimes, ratMean, FVal.fsub, FVal.fdiv, FVal.fmul, exOdd, List.dedup]
  have hl : loopImprovement exOdd 64 = FVal.nan := by
    norm_num [loopImprovement, loopMean, groupTimes, ratMean, listMeanF,
      FVal.fsub, FVal.fdiv, FVal.fmul, exOdd]
  refine ⟨by decide, by decide, hp, hl, ?_⟩
  rw [hp, hl]
  exact fun hc => FVal.noConfusion hc

/-- C5 (amended): for inputs whose distinct k values are exactly 1 and
8, the improvement_% of the comparison table equals the
mean_improvement recomputed in the per-size loop, for every bytes
value. -/
theorem improvement_table_eq_loop (df : List Record)
    (h : distinctK df = [1, 8]) (b : ℤ) :
    pivotImprovement df b = loopImprovement df b :=
  improvement_eq_helper df h b

/-- Witness for the amended C5 at the concrete input exA. -/
theorem improvement_table_eq_loop_witness :
    distinctK exA = [1, 8]
    ∧ pivotImprovement exA 64 = loopImprovement exA 64 :=
  ⟨by decide, improvement_table_eq_loop exA (by decide) 64⟩

/-- C6: for every input and bytes value, the (t, p) pair of the
per-size test equals the standard unpaired two-tailed equal-variance
two-sample t test on the raw k = 1 and k = 8 samples at that bytes
value: t is the pooled-variance statistic (variances written in the
independent sum-of-squares form) and p is the two-tailed Student
p-value at n1 + n2 - 2 degrees of freedom of that t. -/
theorem ttest_standard_formula (df : List Record) (b : ℤ) :
    (perSizeTTest df b).1 =
      ((ratMean (groupTimes df 1 b) - ratMean (groupTimes df 8 b) : ℚ) : ℝ) /
        Real.sqrt
          ((((((groupTimes df 1 b).length : ℚ) - 1) *
                  specSampleVar (groupTimes df 1 b) +
                (((groupTimes df 8 b).length : ℚ) - 1) *
                  specSampleVar (groupTimes df 8 b)) /
              (((groupTimes df 1 b).length : ℚ) +
                ((groupTimes df 8 b).length : ℚ) - 2) : ℚ) *
            (1 / ((groupTimes df 1 b).length : ℝ) +
              1 / ((groupTimes df 8 b).length : ℝ)))
    ∧ (perSizeTTest df b).2 =
        pTwoTailed ((groupTimes df 1 b).length + (groupTimes df 8 b).length - 2)
          (perSizeTTest df b).1 := by
  constructor
  · show ttestT (groupTimes df 1 b) (groupTimes df 8 b) = _
    unfold ttestT
    rw [sampleVarQ_eq_spec (groupTimes df 1 b), sampleVarQ_eq_spec (groupTimes df 8 b)]
  · rfl

/-- C7: in the bar-chart path, for every (bytes, k) group with at least
two samples the error-bar half-width is 1.96 times the standard error
of the mean, 1.96 * (s / sqrt n) with s the Bessel-corrected sample
standard deviation of the group. -/
theorem errorbar_ci_formula (df : List Record) (b kv : ℤ)
    (h : 2 ≤ groupN df b kv) :
    cis df b kv =
      some (1.96 *
        (Real.sqrt ((specSampleVar (groupTimes df kv b) : ℚ) : ℝ) /
          Real.sqrt ((groupN df b kv : ℝ)))) := by
  unfold cis stds
  rw [if_pos h]
  simp only [Option.map]
  rw [sampleVarQ_eq_spec, mul_div_assoc]

/-- Witness for C7 at the concrete input exA, group (64, k = 1). -/
theorem errorbar_ci_formula_witness :
    2 ≤ groupN exA 64 1 ∧
      cis exA 64 1 =
        some (1.96 *
          (Real.sqrt ((specSampleVar (groupTimes exA 1 64) : ℚ) : ℝ) /
            Real.sqrt ((groupN exA 64 1 : ℝ)))) :=
  ⟨by decide, errorbar_ci_formula exA 64 1 (by decide)⟩

/-- C8: a (k, bytes) group with exactly one sample makes the standard
deviation NaN and the derived confidence half-width NaN; the aggregate
functions are total, nothing raises. -/
theorem single_sample_group_nan (df : List Record) (b kv : ℤ)
    (h : groupN df b kv = 1) :
    stds df b kv = none ∧ cis df b kv = none := by
  have h2 : ¬ 2 ≤ groupN df b kv := by omega
  unfold cis stds
  rw [if_neg h2]
  exact ⟨rfl, rfl⟩

/-- Witness for C8 at the concrete input exSingle, group (64, k = 1). -/
theorem single_sample_group_nan_witness :
    groupN exSingle 64 1 = 1
    ∧ stds exSingle 64 1 = none ∧ cis exSingle 64 1 = none :=
  ⟨by decide, single_sample_group_nan exSingle 64 1 (by decide)⟩

/-- C9: the statistics script raises at the rename, terminating before
any improvement or test output, exactly when the number of distinct k
values differs from two; and with two distinct k values a < c, the
column labelled k1 holds the means of the smaller k value a and the
column labelled k8 those of the larger c, whatever a and c are. -/
theorem rename_positional_iff_two (df : List Record) :
    (okB (runStats df) = true ↔ (distinctK df).length = 2)
    ∧ ∀ a c : ℤ, distinctK df = [a, c] →
        a < c
        ∧ ∀ b : ℤ, k1Entry df b = listMeanF (groupTimes df a b)
            ∧ k8Entry df b = listMeanF (groupTimes df c b) := by
  refine ⟨runStats_ok_iff df, ?_⟩
  intro a c hac
  have hpw : (distinctK df).Pairwise (· < ·) := pairwise_sortedDistinct _
  rw [hac] at hpw
  have haltc : a < c := (List.pairwise_cons.mp hpw).1 c (by simp)
  refine ⟨haltc, fun b => ⟨?_, ?_⟩⟩
  · unfold k1Entry
    rw [hac]
    exact pivotEntry_eq df a b
  · unfold k8Entry
    rw [hac]
    exact pivotEntry_eq df c b

/-- Witness for C9 at the concrete input exOdd, whose distinct k values
are 1 and 2: the k1 and k8 columns hold the k = 1 and k = 2 means. -/
theorem rename_positional_iff_two_witness :
    distinctK exOdd = [1, 2]
    ∧ ((1 : ℤ) < 2
      ∧ ∀ b : ℤ, k1Entry exOdd b = listMeanF (groupTimes exOdd 1 b)
          ∧ k8Entry exOdd b = listMeanF (groupTimes exOdd 2 b)) :=
  ⟨by decide, (rename_positional_iff_two exOdd).2 1 2 (by decide)⟩

/-- C10 counterexample: the empty input contains no k = 1 records, yet
the bar-plot loop performs no lookup at all and completes without a
KeyError, refuting the parenthetical for inputs with no bytes values. -/
theorem barchart_empty_input_ok_cex :
    ([] : List Record).countP (fun r => decide (r.k = 1)) = 0
    ∧ okB (barRun ([] : List Record)) = true :=
  ⟨by decide, by decide⟩

/-- C10 (amended): the bar-plot loop raises a missing-key lookup error
exactly when some distinct bytes value of the input lacks k = 1 or
k = 8 samples; in particular every nonempty input with no k = 1 or no
k = 8 records crashes, while the empty input completes. -/
theorem barchart_crash_iff_missing_group (df : List Record) :
    okB (barRun df) = false ↔
      ∃ b ∈ distinctBytesSorted df,
        (groupTimes df 1 b = [] ∨ groupTimes df 8 b = []) := by
  rw [← Bool.not_eq_true, barRun_ok_iff]
  push_neg
  constructor
  · rintro ⟨b, hb, hne⟩
    refine ⟨b, hb, ?_⟩
    by_cases h1 : groupTimes df 1 b = []
    · exact Or.inl h1
    · exact Or.inr (hne h1)
  · rintro ⟨b, hb, h1 | h8⟩
    · exact ⟨b, hb, fun hc => absurd h1 hc⟩
    · exact ⟨b, hb, fun _ => h8⟩

/-- Witness for C10, instantiated at the concrete input exSingle (which
contains the bytes value 64 with no k = 8 samples). -/
theorem barchart_crash_iff_missing_group_witness :
    okB (barRun exSingle) = false ↔
      ∃ b ∈ distinctBytesSorted exSingle,
        (groupTimes exSingle 1 b = [] ∨ groupTimes exSingle 8 b = []) :=
  barchart_crash_iff_missing_group exSingle

end WarpSim
